import Mathlib

/-!
Verification of `fix_pubspecs_v2.py`, a one-shot batch rewriter that walks
directory roots, finds `pubspec.yaml` manifests and replaces local
path-based dependency declarations by fixed version pins.

The script is embedded shallowly: a file is an ordered list of lines, a
line a list of characters (Python `str`).  The per-file scanner
(`fix_file`'s loop over `lines`) becomes the pure function `fixLines`;
the surrounding I/O (`open`/`readlines`/`writelines` and the
`try`/`except` wrapper) becomes an explicit effect model (`fixFileBody`,
`fix_file`, `runAll`) in which the environment decides whether the read,
the open-for-write, and each line written succeed.

Python's `str.strip()` is modelled for the ASCII whitespace characters
(space, tab, newline, carriage return, vertical tab, form feed), which
covers every character occurring in the replacement table and in the
patterns the script matches.
-/

/-- A line of a manifest file, as a list of characters (a Python `str`). -/
abbrev Line : Type := List Char

/-- ASCII whitespace, as stripped by Python `str.strip()`. -/
def pyIsSpace (c : Char) : Bool :=
  c == ' ' || c == '\t' || c == '\n' || c == '\r' || c == '\x0b' || c == '\x0c'

/-- Remove leading whitespace (Python `str.lstrip()`). -/
def lstrip (l : List Char) : List Char := l.dropWhile pyIsSpace

/-- Remove trailing whitespace (Python `str.rstrip()`). -/
def rstrip (l : List Char) : List Char := (l.reverse.dropWhile pyIsSpace).reverse

/-- Python `str.strip()`: remove leading and trailing whitespace. -/
def pyStrip (l : List Char) : List Char := rstrip (lstrip l)

/-- Python's substring test `pat in s`. -/
def pyIn (pat : List Char) : List Char → Bool
  | [] => pat.isEmpty
  | c :: t => pat.isPrefixOf (c :: t) || pyIn pat t

/-- Index of the first occurrence of `pat` in a list, if any
(the non-negative case of Python `str.find`). -/
def pyFindIdx (pat : List Char) : List Char → Option Nat
  | [] => if pat.isEmpty then some 0 else none
  | c :: t => if pat.isPrefixOf (c :: t) then some 0 else (pyFindIdx pat t).map (fun n => n + 1)

/-- Python `s.find(pat)`: first index of `pat` in `s`, `-1` if absent. -/
def pyFind (s pat : List Char) : Int :=
  match pyFindIdx pat s with
  | some n => (n : Int)
  | none => -1

/-- Python slice `l[:j]` for an `Int` index `j` (negative indices count
from the end, out-of-range indices clamp). -/
def pyTake (l : List Char) (j : Int) : List Char :=
  if 0 ≤ j then l.take j.toNat else l.take (l.length - j.natAbs)

/-- The replacement table of `fix_pubspecs_v2.py` (`replacements`, lines
12-49): package name to pinned version constraint. -/
def replacements : List (String × String) := [
  ("web3_universal_core", "^0.1.1"),
  ("web3_universal_crypto", "^0.2.0"),
  ("web3_universal_abi", "^0.1.1"),
  ("web3_universal_chains", "^0.1.0+1"),
  ("web3_universal_signer", "^0.1.1"),
  ("web3_universal_provider", "^0.1.0+1"),
  ("web3_universal_client", "^0.1.1+1"),
  ("web3_universal_contract", "^0.1.0+1"),
  ("web3_universal_ens", "^0.1.1+1"),
  ("web3_universal_aa", "^0.1.1+1"),
  ("web3_universal_reown", "^0.1.1"),
  ("web3_universal_swap", "^0.1.0+2"),
  ("web3_universal_price", "^0.1.1"),
  ("web3_universal_utxo", "^0.1.0+1"),
  ("web3_universal_bc_ur", "^0.1.0+1"),
  ("web3_universal_keystone", "^0.1.0+1"),
  ("web3_universal_ledger", "^0.1.0+1"),
  ("web3_universal_trezor", "^0.1.0+1"),
  ("web3_universal_mpc", "^0.1.0+1"),
  ("web3_universal_nft", "^0.1.1+1"),
  ("web3_universal_multicall", "^0.1.0+2"),
  ("web3_universal_mev", "^0.1.1"),
  ("web3_universal_staking", "^0.1.1+1"),
  ("web3_universal_history", "^0.1.1+1"),
  ("web3_universal_events", "^0.1.0+2"),
  ("web3_universal_solana", "^0.1.1"),
  ("web3_universal_bitcoin", "^0.1.1"),
  ("web3_universal_aptos", "^0.1.0"),
  ("web3_universal_ton", "^0.1.1"),
  ("web3_universal_tron", "^0.1.1"),
  ("web3_universal_polkadot", "^0.1.1"),
  ("web3_universal_cosmos", "^0.1.1"),
  ("web3_universal_debug", "^0.1.1"),
  ("web3_universal_bridge", "^0.1.0+2"),
  ("web3_universal_dapp", "^0.1.1+1"),
  ("web3_universal_compat", "^0.1.0")]

/-- The replacement table with keys and values as character lists. -/
def replacementsL : List (List Char × List Char) :=
  replacements.map (fun p => (p.1.data, p.2.data))

/-- Association-list lookup, modelling `pkg_name in replacements` /
`replacements[pkg_name]` on the Python dict (keys are distinct). -/
def lookupRepl (k : List Char) : List (List Char × List Char) → Option (List Char)
  | [] => none
  | p :: rest => if k = p.1 then some p.2 else lookupRepl k rest

/-- The path-indicator substring `'path:'` searched for in the line after
a dependency name (line 74 of the script). -/
def pathChars : List Char := ("path:").data

/-- The name-line test of the scanner (lines 66-71): the stripped line
must end in a colon and the part before the colon must be a key of the
replacement table; returns the key and its pinned version. -/
def lineMatch (l : Line) : Option (List Char × List Char) :=
  let stripped := pyStrip l
  if stripped.getLast? = some ':' then
    match lookupRepl stripped.dropLast replacementsL with
    | some v => some (stripped.dropLast, v)
    | none => none
  else none

/-- The replacement line built at lines 77-78 of the script:
`f'{indent}{pkg_name}: {replacements[pkg_name]}\n'` with
`indent = line[:line.find(pkg_name)]`. -/
def rewriteLine (l pkg ver : List Char) : Line :=
  pyTake l (pyFind l pkg) ++ pkg ++ (": ").data ++ ver ++ ['\n']

/-- The line scanner of `fix_file` (lines 56-83): a single left-to-right
pass producing the new line list and the `modified` flag.  A matched
name line whose successor contains `path:` is replaced by the pinned
version line and the successor is consumed (`skip_next`); every other
line is emitted unchanged. -/
def fixLines : List Line → List Line × Bool
  | [] => ([], false)
  | [l] => ([l], false)
  | l :: next :: rest =>
    match lineMatch l with
    | some (pkg, ver) =>
      if pyIn pathChars next then
        (rewriteLine l pkg ver :: (fixLines rest).1, true)
      else
        (l :: (fixLines (next :: rest)).1, (fixLines (next :: rest)).2)
    | none => (l :: (fixLines (next :: rest)).1, (fixLines (next :: rest)).2)

/-- Companion of `fixLines` counting the rewritten dependency blocks. -/
def rewriteCount : List Line → Nat
  | [] => 0
  | [_] => 0
  | l :: next :: rest =>
    match lineMatch l with
    | some _ =>
      if pyIn pathChars next then 1 + rewriteCount rest
      else rewriteCount (next :: rest)
    | none => rewriteCount (next :: rest)

/-- Companion of `fixLines` collecting the lines that are not part of a
rewritten dependency block (the lines the scanner emits unchanged). -/
def nonBlockLines : List Line → List Line
  | [] => []
  | [l] => [l]
  | l :: next :: rest =>
    match lineMatch l with
    | some _ =>
      if pyIn pathChars next then nonBlockLines rest
      else l :: nonBlockLines (next :: rest)
    | none => l :: nonBlockLines (next :: rest)

/-- Whether a line list contains a dependency block: an adjacent pair of
a table name line and a successor containing the path indicator. -/
def hasBlock : List Line → Bool
  | [] => false
  | [_] => false
  | l :: next :: rest =>
    ((lineMatch l).isSome && pyIn pathChars next) || hasBlock (next :: rest)

/-- Environment of one `fix_file` call: the file's path and which of the
I/O steps succeed.  `writeCapacity` is the number of lines the
`writelines` call manages to put on disk before an error (a value at
least the length of the new content means the write succeeds). -/
structure FileEnv where
  path : String
  readOk : Bool
  openWriteOk : Bool
  writeCapacity : Nat

/-- Console outcome of one `fix_file` call: the `Fixed ...` line, the
`Error processing ...` line, or no output (unmodified file). -/
inductive Report where
  | fixed (path : String)
  | ioError (path : String) (msg : String)
  | silent
deriving DecidableEq

/-- Body of `fix_file` (lines 52-88) before the `except` clause: read the
file, scan it, and if modified open it with mode `'w'` (which truncates)
and write the new lines.  Returns the disk state and the optional
success message, or the raised error together with the disk state at the
moment it is raised.  Opening for write truncates the file, so a failure
while writing leaves the prefix of the new content written so far. -/
def fixFileBody (env : FileEnv) (disk : List Line) :
    Except (String × List Line) (List Line × Option String) :=
  if env.readOk then
    let r := fixLines disk
    if r.2 then
      if env.openWriteOk then
        if r.1.length ≤ env.writeCapacity then Except.ok (r.1, some "Fixed")
        else Except.error ("write failed", r.1.take env.writeCapacity)
      else Except.error ("open for write failed", disk)
    else Except.ok (disk, none)
  else Except.error ("read failed", disk)

/-- The whole of `fix_file` (lines 52-91): run the body and catch any
raised error (`except Exception as e`), reporting it with the file path;
returns the resulting disk content and the console report. -/
def fix_file (env : FileEnv) (disk : List Line) : List Line × Report :=
  match fixFileBody env disk with
  | Except.ok (d, some _) => (d, Report.fixed env.path)
  | Except.ok (d, none) => (d, Report.silent)
  | Except.error (msg, d) => (d, Report.ioError env.path msg)

/-- The driver loop (lines 93-96): process the discovered manifest files
one after the other, each with its own environment and content. -/
def runAll : List (FileEnv × List Line) → List (List Line × Report)
  | [] => []
  | f :: fs => fix_file f.1 f.2 :: runAll fs

/-- A dependency name line with the two-space indent used in the spec's
example. -/
def nameLineCore : Line := ("  web3_universal_core:\n").data

/-- The path line following it, marking a local path dependency. -/
def pathLineCore : Line := ("    path: ../core\n").data

/-- The replacement produced for that block: indent preserved, version
pinned from the table. -/
def replLineCore : Line := ("  web3_universal_core: ^0.1.1\n").data

/-- A second dependency name line (for multi-block inputs). -/
def nameLineCrypto : Line := ("  web3_universal_crypto:\n").data

/-- Its path line. -/
def pathLineCrypto : Line := ("    path: ../crypto\n").data

/-- Its replacement line. -/
def replLineCrypto : Line := ("  web3_universal_crypto: ^0.2.0\n").data

/-- A manifest content with no dependency block at all. -/
def demoPlainLines : List Line := [("name: demo\n").data, ("environment:\n").data]

/-- An environment in which every I/O step succeeds for files of up to
99 lines. -/
def demoEnv : FileEnv := ⟨"pubspec.yaml", true, true, 99⟩

/-- An environment whose read fails. -/
def failReadEnv : FileEnv := ⟨"bad/pubspec.yaml", false, true, 99⟩

/-- An environment in which the open-for-write succeeds (truncating the
file) but the write of every line fails. -/
def truncEnv : FileEnv := ⟨"pubspec.yaml", true, true, 0⟩

/-!  Helper lemmas about the scanner and its ingredients. -/

/-- Induction on a line list following the shape of the scanner's
recursion (empty, single line, at least two lines). -/
theorem twoStepInduction {P : List Line → Prop} (h0 : P []) (h1 : ∀ a, P [a])
    (h2 : ∀ a b t, P t → P (b :: t) → P (a :: b :: t)) : ∀ l, P l
  | [] => h0
  | [a] => h1 a
  | a :: b :: t => h2 a b t (twoStepInduction h0 h1 h2 t) (twoStepInduction h0 h1 h2 (b :: t))

theorem lookupRepl_mem (k v : List Char) :
    ∀ tbl, lookupRepl k tbl = some v → (k, v) ∈ tbl := by
  intro tbl
  induction tbl with
  | nil => intro h; cases h
  | cons p rest ih =>
    intro h
    unfold lookupRepl at h
    by_cases hk : k = p.1
    · rw [if_pos hk] at h
      cases h
      subst hk
      exact List.mem_cons_self _ _
    · rw [if_neg hk] at h
      exact List.mem_cons_of_mem _ (ih h)

/-- Facts about every entry of the replacement table: keys and versions
are nonempty, a key starts and a version ends with a non-whitespace
character, a version does not end with a colon, and neither a rewritten
version line nor a bare `name:` line contains the substring `path:`. -/
theorem tableFacts : ∀ p ∈ replacementsL,
    p.1 ≠ [] ∧ pyIsSpace (p.1.headD 'x') = false ∧ p.2 ≠ [] ∧
    pyIsSpace (p.2.getLastD 'x') = false ∧ p.2.getLastD 'x' ≠ ':' ∧
    pyIn pathChars (p.1 ++ [':']) = false ∧
    pyIn pathChars (p.1 ++ (": ").data ++ p.2 ++ ['\n']) = false := by decide

theorem pyIn_infix_iff (pat : List Char) : ∀ l, pyIn pat l = true ↔ pat <:+: l := by
  intro l
  induction l with
  | nil =>
    simp only [pyIn, List.isEmpty_iff]
    constructor
    · intro h
      rw [h]
    · intro h
      have := List.eq_nil_of_infix_nil h
      rw [this]
  | cons c t ih =>
    simp only [pyIn, Bool.or_eq_true, List.isPrefixOf_iff_prefix, ih,
      List.infix_cons_iff]


/-- A pattern starting with a non-whitespace character that occurs in
`w ++ r` with `w` all whitespace must occur in `r`. -/
theorem infix_of_ws_append (p : Char) (pt : List Char) (hh : pyIsSpace p = false) :
    ∀ w r, (∀ c ∈ w, pyIsSpace c = true) → (p :: pt) <:+: w ++ r → (p :: pt) <:+: r := by
  intro w
  induction w with
  | nil =>
    intro r _ h
    simpa using h
  | cons c w' ih =>
    intro r hw h
    rw [List.cons_append] at h
    rcases List.infix_cons_iff.mp h with hp | hi
    · rcases List.cons_prefix_cons.mp hp with ⟨rfl, -⟩
      rw [hw p (List.mem_cons_self _ _)] at hh
      cases hh
    · exact ih r (fun c hc => hw c (List.mem_cons_of_mem _ hc)) hi

/-- A pattern ending with a non-whitespace character that occurs in
`r ++ w` with `w` all whitespace must occur in `r`. -/
theorem infix_of_append_ws (q : List Char) (p : Char) (hh : pyIsSpace p = false) :
    ∀ r w, (∀ c ∈ w, pyIsSpace c = true) → (q ++ [p]) <:+: r ++ w → (q ++ [p]) <:+: r := by
  intro r w hw h
  have h1 : (p :: q.reverse) <:+: w.reverse ++ r.reverse := by
    have h2 := List.reverse_infix.mpr h
    simpa [List.reverse_append] using h2
  have h3 : (p :: q.reverse) <:+: r.reverse :=
    infix_of_ws_append p q.reverse hh w.reverse r.reverse
      (fun c hc => hw c (List.mem_reverse.mp hc)) h1
  have h4 : (q ++ [p]).reverse <:+: r.reverse := by
    simpa [List.reverse_append] using h3
  exact List.reverse_infix.mp h4

/-- Decomposition of a line around its stripped core: leading and
trailing parts are pure whitespace. -/
theorem pyStrip_decomp (l : List Char) :
    ∃ w1 w2, (∀ c ∈ w1, pyIsSpace c = true) ∧ (∀ c ∈ w2, pyIsSpace c = true) ∧
      l = w1 ++ pyStrip l ++ w2 := by
  refine ⟨l.takeWhile pyIsSpace, ((lstrip l).reverse.takeWhile pyIsSpace).reverse,
    ?_, ?_, ?_⟩
  · exact fun c hc => List.mem_takeWhile_imp hc
  · intro c hc
    rw [List.mem_reverse] at hc
    exact List.mem_takeWhile_imp hc
  · have hmid : lstrip l = pyStrip l ++ ((lstrip l).reverse.takeWhile pyIsSpace).reverse := by
      have hrev : (lstrip l).reverse =
          (lstrip l).reverse.takeWhile pyIsSpace ++ (lstrip l).reverse.dropWhile pyIsSpace :=
        (List.takeWhile_append_dropWhile _ _).symm
      calc lstrip l = (lstrip l).reverse.reverse := (List.reverse_reverse _).symm
        _ = ((lstrip l).reverse.takeWhile pyIsSpace ++
              (lstrip l).reverse.dropWhile pyIsSpace).reverse := by rw [← hrev]
        _ = ((lstrip l).reverse.dropWhile pyIsSpace).reverse ++
              ((lstrip l).reverse.takeWhile pyIsSpace).reverse := by
            rw [List.reverse_append]
        _ = pyStrip l ++ ((lstrip l).reverse.takeWhile pyIsSpace).reverse := rfl
    calc l = l.takeWhile pyIsSpace ++ l.dropWhile pyIsSpace :=
          (List.takeWhile_append_dropWhile _ _).symm
      _ = l.takeWhile pyIsSpace ++ lstrip l := rfl
      _ = l.takeWhile pyIsSpace ++ (pyStrip l ++
            ((lstrip l).reverse.takeWhile pyIsSpace).reverse) := by rw [← hmid]
      _ = l.takeWhile pyIsSpace ++ pyStrip l ++
            ((lstrip l).reverse.takeWhile pyIsSpace).reverse :=
          (List.append_assoc _ _ _).symm

/-- Inversion of a successful name-line test. -/
theorem lineMatch_some_dest (l : Line) (k v : List Char) (h : lineMatch l = some (k, v)) :
    pyStrip l = k ++ [':'] ∧ lookupRepl k replacementsL = some v := by
  unfold lineMatch at h
  by_cases hg : (pyStrip l).getLast? = some ':'
  · rw [if_pos hg] at h
    cases hlk : lookupRepl (pyStrip l).dropLast replacementsL with
    | none => rw [hlk] at h; cases h
    | some v' =>
      rw [hlk] at h
      have hk : (pyStrip l).dropLast = k ∧ v' = v := by
        cases h
        exact ⟨rfl, rfl⟩
      obtain ⟨hk1, hk2⟩ := hk
      constructor
      · rw [← hk1]
        exact (List.dropLast_append_getLast? ':' hg).symm
      · rw [← hk2, ← hk1]
        exact hlk
  · rw [if_neg hg] at h
    cases h

/-- Construction of a successful name-line test. -/
theorem lineMatch_eq_some (l : Line) (k v : List Char)
    (h1 : pyStrip l = k ++ [':'] ) (h2 : lookupRepl k replacementsL = some v) :
    lineMatch l = some (k, v) := by
  unfold lineMatch
  rw [h1]
  simp only [List.getLast?_concat, List.dropLast_concat, h2]
  simp

theorem pathChars_infix_drop_ws_left (w r : List Char) (hw : ∀ c ∈ w, pyIsSpace c = true)
    (h : pathChars <:+: w ++ r) : pathChars <:+: r := by
  have e : pathChars = 'p' :: ("ath:").data := rfl
  rw [e] at h ⊢
  exact infix_of_ws_append 'p' ("ath:").data (by decide) w r hw h

theorem pathChars_infix_drop_ws_right (r w : List Char) (hw : ∀ c ∈ w, pyIsSpace c = true)
    (h : pathChars <:+: r ++ w) : pathChars <:+: r := by
  have e : pathChars = ("path").data ++ [':'] := rfl
  rw [e] at h ⊢
  exact infix_of_append_ws ("path").data ':' (by decide) r w hw h

/-- A line recognized as a dependency name line never contains the path
indicator substring, so it is never consumed as the second half of a
block and never enables a block on the line before it. -/
theorem noPath_of_match (l : Line) (k v : List Char) (h : lineMatch l = some (k, v)) :
    pyIn pathChars l = false := by
  obtain ⟨hs, hlk⟩ := lineMatch_some_dest l k v h
  have hmem := lookupRepl_mem k v _ hlk
  have hf := tableFacts (k, v) hmem
  cases hb : pyIn pathChars l with
  | false => rfl
  | true =>
    exfalso
    have hinf : pathChars <:+: l := (pyIn_infix_iff pathChars l).mp hb
    obtain ⟨w1, w2, hw1, hw2, hdec⟩ := pyStrip_decomp l
    rw [hdec, hs] at hinf
    have h1 : pathChars <:+: w1 ++ ((k ++ [':']) ++ w2) := by
      simpa [List.append_assoc] using hinf
    have h2 : pathChars <:+: (k ++ [':']) ++ w2 :=
      pathChars_infix_drop_ws_left w1 _ hw1 h1
    have h3 : pathChars <:+: k ++ [':'] :=
      pathChars_infix_drop_ws_right _ w2 hw2 h2
    have h4 : pyIn pathChars (k ++ [':']) = true := (pyIn_infix_iff _ _).mpr h3
    rw [hf.2.2.2.2.2.1] at h4
    cases h4

theorem pyFindIdx_ws_prefix (kh : Char) (kt : List Char) (hkh : pyIsSpace kh = false) :
    ∀ w r, (∀ c ∈ w, pyIsSpace c = true) →
      pyFindIdx (kh :: kt) (w ++ ((kh :: kt) ++ r)) = some w.length := by
  intro w
  induction w with
  | nil =>
    intro r _
    rw [List.nil_append, List.cons_append]
    unfold pyFindIdx
    have hpre : List.isPrefixOf (kh :: kt) (kh :: (kt ++ r)) = true := by
      rw [List.isPrefixOf_iff_prefix]
      exact List.cons_prefix_cons.mpr ⟨rfl, List.prefix_append _ _⟩
    rw [if_pos hpre]
    rfl
  | cons c w' ih =>
    intro r hw
    rw [List.cons_append]
    unfold pyFindIdx
    rw [if_neg, ih r (fun x hx => hw x (List.mem_cons_of_mem _ hx))]
    · rfl
    · intro hpre
      rw [List.isPrefixOf_iff_prefix] at hpre
      rcases List.cons_prefix_cons.mp hpre with ⟨rfl, -⟩
      rw [hw kh (List.mem_cons_self _ _)] at hkh
      cases hkh

/-- Shape of the replacement line on a decomposed name line: the indent
slice `line[:line.find(pkg_name)]` is exactly the leading whitespace. -/
theorem rewriteLine_decomp (l k v w1 w2 : List Char)
    (hl : l = w1 ++ (k ++ [':']) ++ w2) (hw1 : ∀ c ∈ w1, pyIsSpace c = true)
    (hk : k ≠ []) (hkh : pyIsSpace (k.headD 'x') = false) :
    rewriteLine l k v = w1 ++ k ++ (": ").data ++ v ++ ['\n'] := by
  obtain ⟨kh, kt, rfl⟩ : ∃ kh kt, k = kh :: kt := by
    cases k with
    | nil => cases hk rfl
    | cons a b => exact ⟨a, b, rfl⟩
  have hkh' : pyIsSpace kh = false := by simpa using hkh
  have hfind : pyFindIdx (kh :: kt) l = some w1.length := by
    rw [hl]
    have hsh : w1 ++ ((kh :: kt) ++ [':']) ++ w2 = w1 ++ ((kh :: kt) ++ ([':'] ++ w2)) := by
      simp [List.append_assoc]
    rw [hsh]
    exact pyFindIdx_ws_prefix kh kt hkh' w1 ([':'] ++ w2) hw1
  have htake : pyTake l ((w1.length : Nat) : Int) = w1 := by
    unfold pyTake
    rw [if_pos (by omega)]
    have : ((w1.length : Nat) : Int).toNat = w1.length := by omega
    rw [this, hl, List.append_assoc]
    exact List.take_left w1 _
  unfold rewriteLine pyFind
  rw [hfind, htake]

theorem lstrip_ws_append (w : List Char) (hw : ∀ c ∈ w, pyIsSpace c = true) :
    ∀ r, lstrip (w ++ r) = lstrip r := by
  induction w with
  | nil => intro r; rfl
  | cons c w' ih =>
    intro r
    rw [List.cons_append]
    unfold lstrip
    rw [List.dropWhile_cons, if_pos (hw c (List.mem_cons_self _ _))]
    exact ih (fun x hx => hw x (List.mem_cons_of_mem _ hx)) r

theorem lstrip_cons_of_neg (c : Char) (r : List Char) (hc : pyIsSpace c = false) :
    lstrip (c :: r) = c :: r := by
  unfold lstrip
  rw [List.dropWhile_cons, if_neg (by simp [hc])]

theorem rstrip_concat_ws (r : List Char) (c : Char) (hc : pyIsSpace c = true) :
    rstrip (r ++ [c]) = rstrip r := by
  unfold rstrip
  rw [List.reverse_append, List.reverse_singleton, List.singleton_append,
    List.dropWhile_cons, if_pos hc]

theorem rstrip_concat_of_neg (r : List Char) (c : Char) (hc : pyIsSpace c = false) :
    rstrip (r ++ [c]) = r ++ [c] := by
  unfold rstrip
  rw [List.reverse_append, List.reverse_singleton, List.singleton_append,
    List.dropWhile_cons, if_neg (by simp [hc]),
    List.reverse_cons, List.reverse_reverse]

/-- Stripping a replacement line leaves `name: version` (no indent, no
trailing newline). -/
theorem pyStrip_rewriteCore (w1 k v : List Char)
    (hw1 : ∀ c ∈ w1, pyIsSpace c = true) (hk : k ≠ [])
    (hkh : pyIsSpace (k.headD 'x') = false) (hv : v ≠ [])
    (hvl : pyIsSpace (v.getLastD 'x') = false) :
    pyStrip (w1 ++ k ++ (": ").data ++ v ++ ['\n']) = k ++ (": ").data ++ v := by
  obtain ⟨kh, kt, rfl⟩ : ∃ kh kt, k = kh :: kt := by
    cases k with
    | nil => cases hk rfl
    | cons a b => exact ⟨a, b, rfl⟩
  have hkh' : pyIsSpace kh = false := by simpa using hkh
  rcases List.eq_nil_or_concat v with rfl | ⟨vt, vl, hvv⟩
  · cases hv rfl
  · rw [List.concat_eq_append] at hvv
    subst hvv
    have hvl' : pyIsSpace vl = false := by
      have e : (vt ++ [vl]).getLastD 'x' = vl := by
        rw [List.getLastD_eq_getLast?, List.getLast?_concat]
        rfl
      rw [e] at hvl
      exact hvl
    have e1 : w1 ++ (kh :: kt) ++ (": ").data ++ (vt ++ [vl]) ++ ['\n']
        = w1 ++ (kh :: (kt ++ (": ").data ++ (vt ++ [vl]) ++ ['\n'])) := by
      simp [List.append_assoc]
    unfold pyStrip
    rw [e1, lstrip_ws_append w1 hw1, lstrip_cons_of_neg kh _ hkh']
    have e2 : kh :: (kt ++ (": ").data ++ (vt ++ [vl]) ++ ['\n'])
        = ((kh :: kt) ++ (": ").data ++ (vt ++ [vl])) ++ ['\n'] := by
      simp [List.append_assoc]
    rw [e2, rstrip_concat_ws _ '\n' (by decide)]
    have e3 : (kh :: kt) ++ (": ").data ++ (vt ++ [vl])
        = ((kh :: kt) ++ (": ").data ++ vt) ++ [vl] := by
      simp [List.append_assoc]
    rw [e3, rstrip_concat_of_neg _ _ hvl', ← e3]

/-- A replacement line is never itself recognized as a name line: its
stripped form ends with the version's last character, not a colon. -/
theorem lineMatch_rewriteLine (l : Line) (k v : List Char) (h : lineMatch l = some (k, v)) :
    lineMatch (rewriteLine l k v) = none := by
  obtain ⟨hs, hlk⟩ := lineMatch_some_dest l k v h
  have hmem := lookupRepl_mem k v _ hlk
  have hf := tableFacts (k, v) hmem
  obtain ⟨w1, w2, hw1, hw2, hdec⟩ := pyStrip_decomp l
  rw [hs] at hdec
  rw [rewriteLine_decomp l k v w1 w2 hdec hw1 hf.1 hf.2.1]
  unfold lineMatch
  rw [pyStrip_rewriteCore w1 k v hw1 hf.1 hf.2.1 hf.2.2.1 hf.2.2.2.1]
  have hni : ¬ ((k ++ (": ").data ++ v).getLast? = some ':') := by
    rcases List.eq_nil_or_concat v with rfl | ⟨vt, vl, hvv⟩
    · exact absurd rfl hf.2.2.1
    · rw [List.concat_eq_append] at hvv
      subst hvv
      have e : k ++ (": ").data ++ (vt ++ [vl]) = (k ++ (": ").data ++ vt) ++ [vl] := by
        simp [List.append_assoc]
      rw [e, List.getLast?_concat]
      intro hcon
      have hvl : vl = ':' := by
        cases hcon
        rfl
      have hgl : (vt ++ [vl]).getLastD 'x' = vl := by
        rw [List.getLastD_eq_getLast?, List.getLast?_concat]
        rfl
      exact hf.2.2.2.2.1 (by rw [hgl, hvl])
  rw [if_neg hni]

/-- A replacement line never contains the path indicator substring. -/
theorem rewriteLine_no_path (l : Line) (k v : List Char) (h : lineMatch l = some (k, v)) :
    pyIn pathChars (rewriteLine l k v) = false := by
  obtain ⟨hs, hlk⟩ := lineMatch_some_dest l k v h
  have hmem := lookupRepl_mem k v _ hlk
  have hf := tableFacts (k, v) hmem
  obtain ⟨w1, w2, hw1, hw2, hdec⟩ := pyStrip_decomp l
  rw [hs] at hdec
  rw [rewriteLine_decomp l k v w1 w2 hdec hw1 hf.1 hf.2.1]
  cases hb : pyIn pathChars (w1 ++ k ++ (": ").data ++ v ++ ['\n']) with
  | false => rfl
  | true =>
    exfalso
    have hinf := (pyIn_infix_iff _ _).mp hb
    have e : w1 ++ k ++ (": ").data ++ v ++ ['\n']
        = w1 ++ (k ++ (": ").data ++ v ++ ['\n']) := by
      simp [List.append_assoc]
    rw [e] at hinf
    have h2 := pathChars_infix_drop_ws_left w1 _ hw1 hinf
    have h3 : pyIn pathChars (k ++ (": ").data ++ v ++ ['\n']) = true :=
      (pyIn_infix_iff _ _).mpr h2
    rw [hf.2.2.2.2.2.2] at h3
    cases h3

/-!  Unfolding equations for the scanner and its companions. -/

theorem fixLines_nil : fixLines [] = ([], false) := rfl

theorem fixLines_single (l : Line) : fixLines [l] = ([l], false) := rfl

theorem fixLines_cons_none (l next : Line) (rest : List Line) (h : lineMatch l = none) :
    fixLines (l :: next :: rest) =
      (l :: (fixLines (next :: rest)).1, (fixLines (next :: rest)).2) := by
  simp [fixLines, h]

theorem fixLines_cons_skip (l next : Line) (rest : List Line) (pkg ver : List Char)
    (h : lineMatch l = some (pkg, ver)) (hp : pyIn pathChars next = true) :
    fixLines (l :: next :: rest) = (rewriteLine l pkg ver :: (fixLines rest).1, true) := by
  simp [fixLines, h, hp]

theorem fixLines_cons_nopath (l next : Line) (rest : List Line) (pkg ver : List Char)
    (h : lineMatch l = some (pkg, ver)) (hp : pyIn pathChars next = false) :
    fixLines (l :: next :: rest) =
      (l :: (fixLines (next :: rest)).1, (fixLines (next :: rest)).2) := by
  simp [fixLines, h, hp]

theorem rewriteCount_nil : rewriteCount [] = 0 := rfl

theorem rewriteCount_single (l : Line) : rewriteCount [l] = 0 := rfl

theorem rewriteCount_cons_none (l next : Line) (rest : List Line) (h : lineMatch l = none) :
    rewriteCount (l :: next :: rest) = rewriteCount (next :: rest) := by
  simp [rewriteCount, h]

theorem rewriteCount_cons_skip (l next : Line) (rest : List Line) (pkg ver : List Char)
    (h : lineMatch l = some (pkg, ver)) (hp : pyIn pathChars next = true) :
    rewriteCount (l :: next :: rest) = 1 + rewriteCount rest := by
  simp [rewriteCount, h, hp]

theorem rewriteCount_cons_nopath (l next : Line) (rest : List Line) (pkg ver : List Char)
    (h : lineMatch l = some (pkg, ver)) (hp : pyIn pathChars next = false) :
    rewriteCount (l :: next :: rest) = rewriteCount (next :: rest) := by
  simp [rewriteCount, h, hp]

theorem nonBlockLines_nil : nonBlockLines [] = [] := rfl

theorem nonBlockLines_single (l : Line) : nonBlockLines [l] = [l] := rfl

theorem nonBlockLines_cons_none (l next : Line) (rest : List Line) (h : lineMatch l = none) :
    nonBlockLines (l :: next :: rest) = l :: nonBlockLines (next :: rest) := by
  simp [nonBlockLines, h]

theorem nonBlockLines_cons_skip (l next : Line) (rest : List Line) (pkg ver : List Char)
    (h : lineMatch l = some (pkg, ver)) (hp : pyIn pathChars next = true) :
    nonBlockLines (l :: next :: rest) = nonBlockLines rest := by
  simp [nonBlockLines, h, hp]

theorem nonBlockLines_cons_nopath (l next : Line) (rest : List Line) (pkg ver : List Char)
    (h : lineMatch l = some (pkg, ver)) (hp : pyIn pathChars next = false) :
    nonBlockLines (l :: next :: rest) = l :: nonBlockLines (next :: rest) := by
  simp [nonBlockLines, h, hp]

/-- Context lemma: if a line `l` does not contain the path indicator, the
scan of `pre ++ l :: rest` splits into the scan of `pre` followed by the
scan of `l :: rest` — the cursor always reaches `l` with a fresh state,
because `l` can neither be consumed as a path line nor complete a block
started on the last line of `pre`. -/
theorem scan_append (l : Line) (rest : List Line) (hl : pyIn pathChars l = false) :
    ∀ pre, fixLines (pre ++ l :: rest) =
      ((fixLines pre).1 ++ (fixLines (l :: rest)).1,
        ((fixLines pre).2 || (fixLines (l :: rest)).2)) := by
  refine twoStepInduction ?_ ?_ ?_
  · rw [List.nil_append, fixLines_nil]
    simp
  · intro a
    rw [List.cons_append, List.nil_append, fixLines_single]
    cases hm : lineMatch a with
    | none =>
      rw [fixLines_cons_none a l rest hm]
      simp
    | some pv =>
      rw [fixLines_cons_nopath a l rest pv.1 pv.2 (by rw [← hm]) hl]
      simp
  · intro a b t ih2 ih1
    rw [List.cons_append, List.cons_append]
    cases hm : lineMatch a with
    | none =>
      rw [fixLines_cons_none a b (t ++ l :: rest) hm, ← List.cons_append, ih1,
        fixLines_cons_none a b t hm]
      simp [Bool.or_assoc]
    | some pv =>
      cases hp : pyIn pathChars b with
      | true =>
        rw [fixLines_cons_skip a b (t ++ l :: rest) pv.1 pv.2 (by rw [← hm]) hp, ih2,
          fixLines_cons_skip a b t pv.1 pv.2 (by rw [← hm]) hp]
        simp
      | false =>
        rw [fixLines_cons_nopath a b (t ++ l :: rest) pv.1 pv.2 (by rw [← hm]) hp,
          ← List.cons_append, ih1, fixLines_cons_nopath a b t pv.1 pv.2 (by rw [← hm]) hp]
        simp [Bool.or_assoc]

/-- Each rewritten block turns two input lines into one output line. -/
theorem fixLines_length : ∀ lines : List Line,
    (fixLines lines).1.length + rewriteCount lines = lines.length := by
  refine twoStepInduction ?_ ?_ ?_
  · rfl
  · intro a
    rfl
  · intro a b t ih2 ih1
    cases hm : lineMatch a with
    | none =>
      rw [fixLines_cons_none a b t hm, rewriteCount_cons_none a b t hm]
      simp only [List.length_cons] at ih1 ⊢
      omega
    | some pv =>
      cases hp : pyIn pathChars b with
      | true =>
        rw [fixLines_cons_skip a b t pv.1 pv.2 (by rw [← hm]) hp,
          rewriteCount_cons_skip a b t pv.1 pv.2 (by rw [← hm]) hp]
        simp only [List.length_cons] at ih1 ⊢
        omega
      | false =>
        rw [fixLines_cons_nopath a b t pv.1 pv.2 (by rw [← hm]) hp,
          rewriteCount_cons_nopath a b t pv.1 pv.2 (by rw [← hm]) hp]
        simp only [List.length_cons] at ih1 ⊢
        omega

/-- The `modified` flag is set exactly when at least one block is
rewritten. -/
theorem fixLines_modified_iff : ∀ lines : List Line,
    ((fixLines lines).2 = true ↔ 1 ≤ rewriteCount lines) := by
  refine twoStepInduction ?_ ?_ ?_
  · rw [fixLines_nil, rewriteCount_nil]
    simp
  · intro a
    rw [fixLines_single, rewriteCount_single]
    simp
  · intro a b t ih2 ih1
    cases hm : lineMatch a with
    | none =>
      rw [fixLines_cons_none a b t hm, rewriteCount_cons_none a b t hm]
      exact ih1
    | some pv =>
      cases hp : pyIn pathChars b with
      | true =>
        rw [fixLines_cons_skip a b t pv.1 pv.2 (by rw [← hm]) hp,
          rewriteCount_cons_skip a b t pv.1 pv.2 (by rw [← hm]) hp]
        simp
      | false =>
        rw [fixLines_cons_nopath a b t pv.1 pv.2 (by rw [← hm]) hp,
          rewriteCount_cons_nopath a b t pv.1 pv.2 (by rw [← hm]) hp]
        exact ih1

/-- The unchanged lines form a subsequence of the input. -/
theorem nonBlockLines_sublist_input : ∀ lines : List Line,
    List.Sublist (nonBlockLines lines) lines := by
  refine twoStepInduction ?_ ?_ ?_
  · rw [nonBlockLines_nil]
  · intro a
    rw [nonBlockLines_single]
  · intro a b t ih2 ih1
    cases hm : lineMatch a with
    | none =>
      rw [nonBlockLines_cons_none a b t hm]
      exact ih1.cons₂ a
    | some pv =>
      cases hp : pyIn pathChars b with
      | true =>
        rw [nonBlockLines_cons_skip a b t pv.1 pv.2 (by rw [← hm]) hp]
        exact (ih2.trans (List.sublist_cons_self b t)).trans
          (List.sublist_cons_self a (b :: t))
      | false =>
        rw [nonBlockLines_cons_nopath a b t pv.1 pv.2 (by rw [← hm]) hp]
        exact ih1.cons₂ a

/-- The unchanged lines form a subsequence of the output. -/
theorem nonBlockLines_sublist_output : ∀ lines : List Line,
    List.Sublist (nonBlockLines lines) (fixLines lines).1 := by
  refine twoStepInduction ?_ ?_ ?_
  · rw [nonBlockLines_nil, fixLines_nil]
  · intro a
    rw [nonBlockLines_single, fixLines_single]
  · intro a b t ih2 ih1
    cases hm : lineMatch a with
    | none =>
      rw [nonBlockLines_cons_none a b t hm, fixLines_cons_none a b t hm]
      exact ih1.cons₂ a
    | some pv =>
      cases hp : pyIn pathChars b with
      | true =>
        rw [nonBlockLines_cons_skip a b t pv.1 pv.2 (by rw [← hm]) hp,
          fixLines_cons_skip a b t pv.1 pv.2 (by rw [← hm]) hp]
        exact ih2.cons _
      | false =>
        rw [nonBlockLines_cons_nopath a b t pv.1 pv.2 (by rw [← hm]) hp,
          fixLines_cons_nopath a b t pv.1 pv.2 (by rw [← hm]) hp]
        exact ih1.cons₂ a

/-- Output of the scanner is the unchanged lines plus one replacement
line per rewritten block. -/
theorem nonBlockLines_length_output : ∀ lines : List Line,
    (fixLines lines).1.length = (nonBlockLines lines).length + rewriteCount lines := by
  refine twoStepInduction ?_ ?_ ?_
  · rfl
  · intro a
    rfl
  · intro a b t ih2 ih1
    cases hm : lineMatch a with
    | none =>
      rw [fixLines_cons_none a b t hm, nonBlockLines_cons_none a b t hm,
        rewriteCount_cons_none a b t hm]
      simp only [List.length_cons] at ih1 ⊢
      omega
    | some pv =>
      cases hp : pyIn pathChars b with
      | true =>
        rw [fixLines_cons_skip a b t pv.1 pv.2 (by rw [← hm]) hp,
          nonBlockLines_cons_skip a b t pv.1 pv.2 (by rw [← hm]) hp,
          rewriteCount_cons_skip a b t pv.1 pv.2 (by rw [← hm]) hp]
        simp only [List.length_cons] at ih1 ⊢
        omega
      | false =>
        rw [fixLines_cons_nopath a b t pv.1 pv.2 (by rw [← hm]) hp,
          nonBlockLines_cons_nopath a b t pv.1 pv.2 (by rw [← hm]) hp,
          rewriteCount_cons_nopath a b t pv.1 pv.2 (by rw [← hm]) hp]
        simp only [List.length_cons] at ih1 ⊢
        omega

/-- When no dependency block is present the scanner is the identity and
reports no modification. -/
theorem fixLines_of_no_block : ∀ lines : List Line,
    hasBlock lines = false → fixLines lines = (lines, false) := by
  refine twoStepInduction ?_ ?_ ?_
  · intro _
    rw [fixLines_nil]
  · intro a _
    rw [fixLines_single]
  · intro a b t ih2 ih1 hnb
    have hnb' : hasBlock (b :: t) = false ∧
        ((lineMatch a).isSome && pyIn pathChars b) = false := by
      unfold hasBlock at hnb
      constructor
      · cases hx : hasBlock (b :: t)
        · rfl
        · rw [hx, Bool.or_true] at hnb
          cases hnb
      · cases hx : ((lineMatch a).isSome && pyIn pathChars b)
        · rfl
        · rw [hx, Bool.true_or] at hnb
          cases hnb
    cases hm : lineMatch a with
    | none =>
      rw [fixLines_cons_none a b t hm, ih1 hnb'.1]
    | some pv =>
      cases hp : pyIn pathChars b with
      | true =>
        exfalso
        have : ((lineMatch a).isSome && pyIn pathChars b) = true := by
          rw [hm, hp]
          rfl
        rw [this] at hnb'
        cases hnb'.2
      | false =>
        rw [fixLines_cons_nopath a b t pv.1 pv.2 (by rw [← hm]) hp, ih1 hnb'.1]

/-- The first output line of a scan of a nonempty input is either the
first input line itself (emitted unchanged) or the replacement line of a
recognized block starting at the first input line. -/
theorem fixLines_head_shape (next : Line) (rest : List Line) :
    (∃ t', (fixLines (next :: rest)).1 = next :: t') ∨
    (∃ k v t', lineMatch next = some (k, v) ∧
      (fixLines (next :: rest)).1 = rewriteLine next k v :: t') := by
  cases rest with
  | nil =>
    left
    exact ⟨[], by rw [fixLines_single]⟩
  | cons r0 rest2 =>
    cases hm : lineMatch next with
    | none =>
      left
      exact ⟨_, by rw [fixLines_cons_none next r0 rest2 hm]⟩
    | some pv =>
      cases hp : pyIn pathChars r0 with
      | true =>
        right
        obtain ⟨pk, pver⟩ := pv
        exact ⟨pk, pver, (fixLines rest2).1, rfl,
          by rw [fixLines_cons_skip next r0 rest2 pk pver hm hp]⟩
      | false =>
        left
        exact ⟨_, by rw [fixLines_cons_nopath next r0 rest2 pv.1 pv.2 (by rw [← hm]) hp]⟩

/-- The scanner is idempotent: a second pass over its own output finds
nothing to rewrite and reports no modification. -/
theorem fixLines_idem : ∀ lines : List Line,
    fixLines ((fixLines lines).1) = ((fixLines lines).1, false) := by
  refine twoStepInduction ?_ ?_ ?_
  · rfl
  · intro a
    rfl
  · intro a b t ih2 ih1
    cases hm : lineMatch a with
    | none =>
      rw [fixLines_cons_none a b t hm]
      dsimp only
      rcases fixLines_head_shape b t with ⟨t', he⟩ | ⟨k, v, t', hm2, he⟩
      · rw [he] at ih1 ⊢
        rw [fixLines_cons_none a b t' hm, ih1]
      · rw [he] at ih1 ⊢
        rw [fixLines_cons_none a _ t' hm, ih1]
    | some pv =>
      cases hp : pyIn pathChars b with
      | true =>
        rw [fixLines_cons_skip a b t pv.1 pv.2 (by rw [← hm]) hp]
        dsimp only
        have hrm : lineMatch (rewriteLine a pv.1 pv.2) = none :=
          lineMatch_rewriteLine a pv.1 pv.2 (by rw [← hm])
        cases hout : (fixLines t).1 with
        | nil =>
          rw [fixLines_single]
        | cons h t2 =>
          rw [fixLines_cons_none _ h t2 hrm, ← hout, ih2]
      | false =>
        rw [fixLines_cons_nopath a b t pv.1 pv.2 (by rw [← hm]) hp]
        dsimp only
        rcases fixLines_head_shape b t with ⟨t', he⟩ | ⟨k, v, t', hm2, he⟩
        · rw [he] at ih1 ⊢
          rw [fixLines_cons_nopath a b t' pv.1 pv.2 (by rw [← hm]) hp, ih1]
        · have hnp := rewriteLine_no_path b k v hm2
          rw [he] at ih1 ⊢
          rw [fixLines_cons_nopath a _ t' pv.1 pv.2 (by rw [← hm]) hnp, ih1]

theorem runAll_append : ∀ xs ys : List (FileEnv × List Line),
    runAll (xs ++ ys) = runAll xs ++ runAll ys := by
  intro xs ys
  induction xs with
  | nil => rfl
  | cons f fs ih =>
    rw [List.cons_append]
    show fix_file f.1 f.2 :: runAll (fs ++ ys) = fix_file f.1 f.2 :: runAll fs ++ runAll ys
    rw [ih, List.cons_append]

theorem runAll_length : ∀ fs : List (FileEnv × List Line),
    (runAll fs).length = fs.length := by
  intro fs
  induction fs with
  | nil => rfl
  | cons f t ih =>
    show (fix_file f.1 f.2 :: runAll t).length = t.length + 1
    rw [List.length_cons, ih]

/-!  Claim theorems. -/

/-- C1, counterexample to the line-count part: an input containing the
adjacent pair `  web3_universal_core:` / `    path: ../core` twice is
rewritten to two lines, so the output line count is the input count
minus two, not minus one. -/
theorem c1_count_counterexample :
    fixLines [nameLineCore, pathLineCore, nameLineCore, pathLineCore]
        = ([replLineCore, replLineCore], true) ∧
    ([replLineCore, replLineCore] : List Line).length ≠
      ([nameLineCore, pathLineCore, nameLineCore, pathLineCore] : List Line).length - 1 := by
  constructor
  · decide
  · decide

/-- C1 (amended): for every input containing the adjacent pair
`  web3_universal_core:` / `    path: ../core`, the scanner replaces the
two lines at that occurrence by the single line
`  web3_universal_core: ^0.1.1` (two-space indent preserved), sets the
modified flag, and the output line count is the input count minus the
number of rewritten blocks, which is at least one (so exactly minus one
when that pair is the only rewritten block). -/
theorem c1_block_rewrite (pre post : List Line) :
    (fixLines (pre ++ nameLineCore :: pathLineCore :: post)).1
        = (fixLines pre).1 ++ replLineCore :: (fixLines post).1 ∧
    (fixLines (pre ++ nameLineCore :: pathLineCore :: post)).2 = true ∧
    (fixLines (pre ++ nameLineCore :: pathLineCore :: post)).1.length
        = (pre ++ nameLineCore :: pathLineCore :: post).length
          - rewriteCount (pre ++ nameLineCore :: pathLineCore :: post) ∧
    1 ≤ rewriteCount (pre ++ nameLineCore :: pathLineCore :: post) := by
  have hnp : pyIn pathChars nameLineCore = false := by decide
  have hsa := scan_append nameLineCore (pathLineCore :: post) hnp pre
  have hstep : fixLines (nameLineCore :: pathLineCore :: post)
      = (replLineCore :: (fixLines post).1, true) := by
    rw [fixLines_cons_skip nameLineCore pathLineCore post
      (("web3_universal_core").data) (("^0.1.1").data) (by decide) (by decide)]
    have hr : rewriteLine nameLineCore (("web3_universal_core").data)
        (("^0.1.1").data) = replLineCore := by decide
    rw [hr]
  have hmod : (fixLines (pre ++ nameLineCore :: pathLineCore :: post)).2 = true := by
    rw [hsa, hstep]
    simp
  have hcount : 1 ≤ rewriteCount (pre ++ nameLineCore :: pathLineCore :: post) :=
    (fixLines_modified_iff _).mp hmod
  have hlen := fixLines_length (pre ++ nameLineCore :: pathLineCore :: post)
  refine ⟨?_, hmod, by omega, hcount⟩
  rw [hsa, hstep]

/-- C2: a manifest with no dependency block is returned unmodified with
the flag clear, and (with a successful read) `fix_file` leaves the disk
untouched and prints nothing. -/
theorem c2_no_block_no_change (lines : List Line) (h : hasBlock lines = false) :
    fixLines lines = (lines, false) ∧
    ∀ env : FileEnv, env.readOk = true → fix_file env lines = (lines, Report.silent) := by
  have hfix := fixLines_of_no_block lines h
  refine ⟨hfix, ?_⟩
  intro env hr
  simp [fix_file, fixFileBody, hr, hfix]

theorem c2_no_block_no_change_witness :
    fixLines demoPlainLines = (demoPlainLines, false) ∧
    fix_file demoEnv demoPlainLines = (demoPlainLines, Report.silent) :=
  ⟨(c2_no_block_no_change demoPlainLines (by decide)).1,
   (c2_no_block_no_change demoPlainLines (by decide)).2 demoEnv rfl⟩

/-- C3: the rewrite is idempotent — a second scan of the first scan's
output changes nothing and reports `modified = false`. -/
theorem c3_idempotent (lines : List Line) :
    fixLines ((fixLines lines).1) = ((fixLines lines).1, false) :=
  fixLines_idem lines

/-- C4: the lines outside rewritten dependency blocks (collected in
input order by `nonBlockLines`) appear verbatim and in order both in the
input and in the output, and the output consists of exactly those lines
plus one replacement line per rewritten block. -/
theorem c4_nonblock_lines_preserved (lines : List Line) :
    List.Sublist (nonBlockLines lines) lines ∧
    List.Sublist (nonBlockLines lines) (fixLines lines).1 ∧
    (fixLines lines).1.length = (nonBlockLines lines).length + rewriteCount lines :=
  ⟨nonBlockLines_sublist_input lines, nonBlockLines_sublist_output lines,
    nonBlockLines_length_output lines⟩

/-- C5, counterexample to the preservation of the following line: in
`[  web3_universal_core:,   web3_universal_crypto:,     path: ../crypto]`
the first name line's successor has no path indicator, so that pair is
not rewritten — but the successor is itself a name line that starts its
own block and is rewritten, hence it is not preserved unchanged in the
output. -/
theorem c5_following_line_counterexample :
    fixLines [nameLineCore, nameLineCrypto, pathLineCrypto]
        = ([nameLineCore, replLineCrypto], true) ∧
    lineMatch nameLineCore
        = some ((("web3_universal_core").data), (("^0.1.1").data)) ∧
    pyIn pathChars nameLineCrypto = false ∧
    nameLineCrypto ∉ [nameLineCore, replLineCrypto] := by
  refine ⟨by decide, by decide, by decide, by decide⟩

/-- C5 (amended): if a name line matches the table but its successor has
no path indicator, the pair is not merged: the name line is emitted
unchanged at its position and the scan continues at the successor with a
fresh cursor (the successor may then start its own block). -/
theorem c5_no_pair_rewrite (l next : Line) (k v : List Char)
    (hm : lineMatch l = some (k, v)) (hnp : pyIn pathChars next = false) :
    ∀ pre post, fixLines (pre ++ l :: next :: post)
      = ((fixLines pre).1 ++ l :: (fixLines (next :: post)).1,
         ((fixLines pre).2 || (fixLines (next :: post)).2)) := by
  intro pre post
  have hl : pyIn pathChars l = false := noPath_of_match l k v hm
  rw [scan_append l (next :: post) hl pre, fixLines_cons_nopath l next post k v hm hnp]

theorem c5_no_pair_rewrite_witness :
    fixLines ([] ++ nameLineCore :: ("  version: 1.0.0\n").data :: [])
      = ((fixLines []).1 ++ nameLineCore :: (fixLines [("  version: 1.0.0\n").data]).1,
         ((fixLines []).2 || (fixLines [("  version: 1.0.0\n").data]).2)) :=
  c5_no_pair_rewrite nameLineCore (("  version: 1.0.0\n").data)
    (("web3_universal_core").data) (("^0.1.1").data) (by decide) (by decide) [] []

/-- C6: a table name line that is the last line of the file is emitted
unchanged and neither causes a rewrite nor sets the modified flag — the
scan of `init ++ [lastL]` is exactly the scan of `init` with `lastL`
appended and the same flag. -/
theorem c6_last_line_unchanged (lastL : Line) (k v : List Char)
    (hm : lineMatch lastL = some (k, v)) :
    ∀ init, fixLines (init ++ [lastL])
      = ((fixLines init).1 ++ [lastL], (fixLines init).2) := by
  intro init
  have hl : pyIn pathChars lastL = false := noPath_of_match lastL k v hm
  rw [scan_append lastL [] hl init, fixLines_single]
  simp

theorem c6_last_line_unchanged_witness :
    fixLines [pathLineCore, nameLineCore]
      = ((fixLines [pathLineCore]).1 ++ [nameLineCore], (fixLines [pathLineCore]).2) :=
  c6_last_line_unchanged nameLineCore (("web3_universal_core").data)
    (("^0.1.1").data) (by decide) [pathLineCore]

/-- C7: an I/O failure inside `fix_file` is caught there, reported with
the file path and the error detail, and the driver loop still processes
every other file: the run over `pre ++ failing :: post` is the run over
`pre`, then the failure report, then the run over `post`, with one
outcome per input file. -/
theorem c7_errors_caught (env : FileEnv) (disk : List Line) (m : String) (d : List Line)
    (pre post : List (FileEnv × List Line))
    (h : fixFileBody env disk = Except.error (m, d)) :
    fix_file env disk = (d, Report.ioError env.path m) ∧
    runAll (pre ++ (env, disk) :: post)
      = runAll pre ++ (d, Report.ioError env.path m) :: runAll post ∧
    (runAll (pre ++ (env, disk) :: post)).length = pre.length + 1 + post.length := by
  have h1 : fix_file env disk = (d, Report.ioError env.path m) := by
    unfold fix_file
    rw [h]
  refine ⟨h1, ?_, ?_⟩
  · rw [runAll_append]
    show runAll pre ++ fix_file env disk :: runAll post = _
    rw [h1]
  · rw [runAll_length]
    simp only [List.length_append, List.length_cons]
    omega

theorem c7_errors_caught_witness :
    fix_file failReadEnv demoPlainLines
        = (demoPlainLines, Report.ioError "bad/pubspec.yaml" "read failed") ∧
    runAll ([] ++ (failReadEnv, demoPlainLines) :: [(demoEnv, demoPlainLines)])
      = runAll []
          ++ (demoPlainLines, Report.ioError "bad/pubspec.yaml" "read failed")
            :: runAll [(demoEnv, demoPlainLines)] ∧
    (runAll ([] ++ (failReadEnv, demoPlainLines) :: [(demoEnv, demoPlainLines)])).length
        = 0 + 1 + 1 := by
  have h := c7_errors_caught failReadEnv demoPlainLines "read failed" demoPlainLines
    [] [(demoEnv, demoPlainLines)] rfl
  exact ⟨h.1, h.2.1, h.2.2⟩

/-- C8, counterexample to all-or-nothing: with a block to rewrite, a
write error after the open-for-write (which truncates) leaves an empty
file on disk — neither the original content nor the full new content. -/
theorem c8_not_atomic_counterexample :
    fix_file truncEnv [nameLineCore, pathLineCore]
        = ([], Report.ioError "pubspec.yaml" "write failed") ∧
    ([] : List Line) ≠ [nameLineCore, pathLineCore] ∧
    ([] : List Line) ≠ [replLineCore] := by
  refine ⟨by decide, by decide, by decide⟩

/-- C8 (amended): the original content survives exactly the failures
that happen before the file is opened for writing — if the read fails,
or the open-for-write fails, the disk still holds the original lines;
once the open succeeds the file is truncated and a write failure can
leave a partial (prefix-of-new-content) state. -/
theorem c8_intact_before_write (env : FileEnv) (disk : List Line)
    (h : env.readOk = false ∨ env.openWriteOk = false) :
    (fix_file env disk).1 = disk := by
  unfold fix_file fixFileBody
  rcases h with h | h
  · simp [h]
  · cases hr : env.readOk
    · simp
    · cases hm : (fixLines disk).2
      · simp [hm]
      · simp [hm, h]

theorem c8_intact_before_write_witness :
    (fix_file (⟨"pubspec.yaml", true, false, 99⟩ : FileEnv)
        [nameLineCore, pathLineCore]).1 = [nameLineCore, pathLineCore] :=
  c8_intact_before_write ⟨"pubspec.yaml", true, false, 99⟩
    [nameLineCore, pathLineCore] (Or.inr rfl)

/-- C9: the scanner and the per-file routine are pure — the outcome for
a file is a function of that file's environment and content only, so the
last entry of a run is the same whatever files were processed before. -/
theorem c9_history_independent (h1 h2 : List (FileEnv × List Line))
    (f : FileEnv × List Line) :
    (runAll (h1 ++ [f])).getLast? = some (fix_file f.1 f.2) ∧
    (runAll (h1 ++ [f])).getLast? = (runAll (h2 ++ [f])).getLast? := by
  have key : ∀ hs : List (FileEnv × List Line),
      (runAll (hs ++ [f])).getLast? = some (fix_file f.1 f.2) := by
    intro hs
    rw [runAll_append]
    show (runAll hs ++ [fix_file f.1 f.2]).getLast? = _
    rw [List.getLast?_concat]
  exact ⟨key h1, by rw [key h1, key h2]⟩

/-- C10: when the scanner reports a modification the output is exactly
the input length minus the number of rewritten blocks, strictly shorter
than the input, hence different from it — so the conditional write only
happens for genuinely changed content. -/
theorem c10_modified_shrinks (lines : List Line) (h : (fixLines lines).2 = true) :
    (fixLines lines).1.length = lines.length - rewriteCount lines ∧
    1 ≤ rewriteCount lines ∧
    (fixLines lines).1.length < lines.length ∧
    (fixLines lines).1 ≠ lines := by
  have hc := (fixLines_modified_iff lines).mp h
  have hl := fixLines_length lines
  refine ⟨by omega, hc, by omega, ?_⟩
  intro he
  rw [he] at hl
  omega

theorem c10_modified_shrinks_witness :
    (fixLines [nameLineCore, pathLineCore]).1.length
        = ([nameLineCore, pathLineCore] : List Line).length
          - rewriteCount [nameLineCore, pathLineCore] ∧
    1 ≤ rewriteCount [nameLineCore, pathLineCore] ∧
    (fixLines [nameLineCore, pathLineCore]).1.length
        < ([nameLineCore, pathLineCore] : List Line).length ∧
    (fixLines [nameLineCore, pathLineCore]).1 ≠ [nameLineCore, pathLineCore] :=
  c10_modified_shrinks [nameLineCore, pathLineCore] (by decide)
